import Mathlib

/-!
Verification of the cab-navigation orchestrator and its rule-based
preference extractor, shallowly embedded from the Python sources
(`orchestrator.py`, `tools/nlp_parser.py`, `config.py`, `models/*.py`).

Conventions of the embedding:
* Python strings are Lean `String`s; `x in s` (substring test) is
  `containsSub`; `str.lower()` is `pyLower` (ASCII case folding, which
  agrees with Python on the ASCII inputs this program handles).
* Python floats carrying prices are modelled as `ℚ` (only ordering and
  equality of prices matter to the code under verification).
* CPython dicts keep insertion order; `prices` is an association list
  with `dictSet` reproducing dict assignment (update in place, append
  when fresh).
* A function that may raise models the exceptional exit explicitly
  (`Except`, `Option`, or an injected fault parameter for a
  `try`/`except` whose body's failure source is external).
-/

/-- `models/ride_preferences.py` — RidePreferences pydantic model. -/
structure RidePreferences where
  destination : String
  ride_type : String := "car"
  vehicle_type : Option String := none
  passengers : Nat := 1
  luggage : Bool := false
  ac_preference : Option Bool := none
  budget_constraint : Option ℚ := none
deriving DecidableEq

/-- `models/price_info.py` — PriceInfo pydantic model. -/
structure PriceInfo where
  app_name : String
  ride_type : String
  estimated_price : ℚ
  estimated_time : String
  distance : Option String := none
  currency : String := "INR"
  extra_charges : Option String := none
  available : Bool := true
deriving DecidableEq

/-- `models/booking_info.py` — BookingInfo pydantic model. -/
structure BookingInfo where
  booking_id : String
  app_name : String
  ride_type : String
  estimated_price : ℚ
  estimated_arrival : String
  driver_name : Option String := none
  driver_rating : Option ℚ := none
  vehicle_details : Option String := none
  status : String := "confirmed"
  pickup_location : Option String := none
  destination : Option String := none
deriving DecidableEq

/-- `orchestrator.py` lines 19-25 — ComparisonResult dataclass.  The
`comparison_summary` display string (built by `_build_comparison_summary`,
pure presentation) is not modelled. -/
structure ComparisonResult where
  prices : List (String × PriceInfo)
  cheapest_app : String
  cheapest_price : ℚ
deriving DecidableEq

/-- Contiguous-sublist test (`n` occurs as an infix of `h`). -/
def isSubList (n : List Char) : List Char → Bool
  | [] => n.isEmpty
  | c :: t => n.isPrefixOf (c :: t) || isSubList n t

/-- Python `needle in haystack` for strings: contiguous substring test. -/
def containsSub (needle haystack : String) : Bool :=
  isSubList needle.toList haystack.toList

/-- Python `str.lower()` (ASCII fragment). -/
def pyLower (s : String) : String :=
  ⟨s.toList.map Char.toLower⟩

/-- Python `\s` (ASCII fragment): space, tab, newline, CR, VT, FF. -/
def pyWs (c : Char) : Bool :=
  c = ' ' || c = '\t' || c = '\n' || c = '\r' || c = '\x0b' || c = '\x0c'

/-- Python `str.strip()` (ASCII whitespace). -/
def pyStrip (s : List Char) : String :=
  ⟨((s.dropWhile pyWs).reverse.dropWhile pyWs).reverse⟩

/-- `config.py` lines 32-41 — COMMON_DESTINATIONS, in source (dict) order. -/
def COMMON_DESTINATIONS : List (String × List String) := [
  ("work", ["work", "office", "workplace", "company"]),
  ("home", ["home", "house", "apartment", "residence"]),
  ("jaypee institute of information technology sec 62 noida",
    ["jaypee", "jiit", "sec 62", "sector 62", "noida"]),
  ("jaypee institute of information technology sec 128 jaypee wishtown noida",
    ["jaypee", "jiit", "sec 128", "sector 128", "wishtown", "noida"])]

/-- `nlp_parser.py` line 29 — `len(matching_keywords)`: how many of a
destination's keywords occur in the lower-cased input. -/
def matchCount (kws : List String) (lower : String) : Nat :=
  (kws.filter (fun kw => containsSub kw lower)).length

/-- `nlp_parser.py` lines 27-31 — the `matches` dict of `_match_destination`:
each destination (in table order) with its keyword-match count; destinations
with zero matches are not entered. -/
def destMatches (table : List (String × List String)) (lower : String) :
    List (String × Nat) :=
  match table with
  | [] => []
  | (d, kws) :: rest =>
    let c := matchCount kws lower
    if 0 < c then (d, c) :: destMatches rest lower else destMatches rest lower

/-- `nlp_parser.py` line 52 — the "highly specific keyword" test, with
Python's operator precedence:
`(len(kw) > 3 and kw.isdigit()) or ("sec" in kw) or ("sector" in kw)`. -/
def isSpecificKw (kw : String) : Bool :=
  (decide (3 < kw.length) && kw.toList.all Char.isDigit)
    || containsSub "sec" kw || containsSub "sector" kw

/-- `nlp_parser.py` lines 47-57 — the disambiguation loop: scan the table in
order, skip destinations absent from `matches`, return the first whose
specific keywords have an occurrence in the input. -/
def firstSpecific (table : List (String × List String))
    (ms : List (String × Nat)) (lower : String) : Option String :=
  match table with
  | [] => none
  | (d, kws) :: rest =>
    if (List.lookup d ms).isSome then
      let specificKws := kws.filter isSpecificKw
      let specificHits := specificKws.filter (fun kw => containsSub kw lower)
      if specificHits.isEmpty then firstSpecific rest ms lower else some d
    else firstSpecific rest ms lower

/-- `nlp_parser.py` line 60 — the running best of
`max(matches.items(), key=lambda x: x[1])`: CPython `max` keeps the earliest
item among equals (it replaces the current best only on a strictly greater
key). -/
def pyMaxPair (hd : String × Nat) (tl : List (String × Nat)) : String × Nat :=
  tl.foldl (fun best q => if best.2 < q.2 then q else best) hd

/-- `nlp_parser.py` line 60 — `max(matches.items(), key=lambda x: x[1])[0]`. -/
def pyMaxBySnd (hd : String × Nat) (tl : List (String × Nat)) : String :=
  (pyMaxPair hd tl).1

/-- `nlp_parser.py` lines 9-64 — `_match_destination` (None ↦ `none`). -/
def matchDestination (input : String) : Option String :=
  let lower := pyLower input
  match destMatches COMMON_DESTINATIONS lower with
  | [] => none
  | [m] => some m.1
  | m0 :: m1 :: rest =>
    match firstSpecific COMMON_DESTINATIONS (m0 :: m1 :: rest) lower with
    | some d => some d
    | none => some (pyMaxBySnd m0 (m1 :: rest))

example : matchDestination "take me to jiit" =
    some "jaypee institute of information technology sec 62 noida" := by decide
example : matchDestination "jaypee sector 128" =
    some "jaypee institute of information technology sec 128 jaypee wishtown noida" := by
  decide
example : matchDestination "go to airport" = none := by decide

/-!
Backtracking matcher for the destination regex of `nlp_parser.py` line 89:
`(?:to|go to|take me to|head to|towards?|near)\s+([a-zA-Z\s]+?)(?:\s+(?:in|by|using|with|as|please|now))?`
run with `re.search` over the lower-cased input.  Each construct of the
pattern is one function; ordered choice is modelled by trying options in the
engine's preference order and keeping the first full-pattern success.
-/

/-- The marker alternation, in the pattern's order.  `towards?` tries the
greedy branch (`s` present) before the bare one. -/
def destMarkers : List (List Char) :=
  ["to", "go to", "take me to", "head to", "towards", "toward", "near"].map
    String.toList

/-- The trailing-qualifier alternation `(?:in|by|using|with|as|please|now)`. -/
def qualWords : List (List Char) :=
  ["in", "by", "using", "with", "as", "please", "now"].map String.toList

/-- The capture-group character class `[a-zA-Z\s]`. -/
def destChar (c : Char) : Bool :=
  ('a' ≤ c && c ≤ 'z') || ('A' ≤ c && c ≤ 'Z') || pyWs c

/-- Length of the leading whitespace run. -/
def leadingWsCount : List Char → Nat
  | [] => 0
  | c :: rest => if pyWs c then leadingWsCount rest + 1 else 0

/-- `\s+` (greedy): try consuming `j` whitespace characters for `j` from the
maximal run down to 1, keeping the first continuation success. -/
def wsPlusTry (k : List Char → Option (List Char)) (r : List Char) :
    Nat → Option (List Char)
  | 0 => none
  | j + 1 =>
    match k (r.drop (j + 1)) with
    | some g => some g
    | none => wsPlusTry k r j

/-- `\s+` (greedy) with continuation `k`. -/
def wsPlus (k : List Char → Option (List Char)) (r : List Char) :
    Option (List Char) :=
  wsPlusTry k r (leadingWsCount r)

/-- The optional tail `(?:\s+(?:in|by|using|with|as|please|now))?` followed by
the end of the pattern: the greedy option tries the qualifier branch first and
falls back to the empty branch; either way the match succeeds with the capture
accumulated so far. -/
def optQual (cap : List Char) (r : List Char) : Option (List Char) :=
  match wsPlus (fun r2 =>
      if qualWords.any (fun q => q.isPrefixOf r2) then some cap else none) r with
  | some g => some g
  | none => some cap

/-- Growth loop of the lazy group `([a-zA-Z\s]+?)`: at each size first try the
continuation, then extend by one class character. -/
def lazyGrow (k : List Char → List Char → Option (List Char))
    (cap : List Char) (r : List Char) : Option (List Char) :=
  match k cap r with
  | some g => some g
  | none =>
    match r with
    | [] => none
    | c :: rest => if destChar c then lazyGrow k (cap ++ [c]) rest else none

/-- The lazy group `([a-zA-Z\s]+?)`: must consume at least one character. -/
def lazyStart (k : List Char → List Char → Option (List Char))
    (r : List Char) : Option (List Char) :=
  match r with
  | [] => none
  | c :: rest => if destChar c then lazyGrow k [c] rest else none

/-- Whole pattern anchored at the current position: marker, `\s+`, lazy
capture group, optional qualifier tail. -/
def destMatchAt (s : List Char) : Option (List Char) :=
  let rec tryMarkers : List (List Char) → Option (List Char)
    | [] => none
    | m :: rest =>
      match (if m.isPrefixOf s then
          wsPlus (fun r2 => lazyStart optQual r2) (s.drop m.length)
        else none) with
      | some g => some g
      | none => tryMarkers rest
  tryMarkers destMarkers

/-- `re.search`: leftmost position whose anchored match succeeds; the payload
is the content of capture group 1. -/
def reSearchDest (s : List Char) : Option (List Char) :=
  match destMatchAt s with
  | some g => some g
  | none =>
    match s with
    | [] => none
    | _ :: rest => reSearchDest rest

example : reSearchDest "go to airport".toList = some ['a'] := by decide
example : reSearchDest "xyz".toList = none := by decide
example : reSearchDest "towards delhi".toList = some ['d'] := by decide

/-- The alternation `(?:of us|people|passengers|persons)` of the passenger
count pattern, `nlp_parser.py` line 121. -/
def countWords : List (List Char) :=
  ["of us", "people", "passengers", "persons"].map String.toList

/-- Value of a digit run (`int(...)` on the captured digits). -/
def digitsToNat (ds : List Char) : Nat :=
  ds.foldl (fun acc c => acc * 10 + (c.toNat - '0'.toNat)) 0

/-- `(\d+)\s+(?:of us|people|passengers|persons)` anchored at the current
position.  `(\d+)` takes the maximal digit run (shrinking it cannot help:
the following `\s+` never matches a digit), then `\s+` takes the maximal
whitespace run (shrinking it cannot help: no alternative starts with
whitespace), then the word alternation must match a prefix. -/
def numMatchAt (s : List Char) : Option Nat :=
  let ds := s.takeWhile Char.isDigit
  if ds.isEmpty then none
  else
    let r1 := s.drop ds.length
    let ws := r1.takeWhile pyWs
    if ws.isEmpty then none
    else
      let r2 := r1.drop ws.length
      if countWords.any (fun w => w.isPrefixOf r2) then some (digitsToNat ds)
      else none

/-- `re.search` for the passenger count pattern. -/
def numSearch (s : List Char) : Option Nat :=
  match numMatchAt s with
  | some n => some n
  | none =>
    match s with
    | [] => none
    | _ :: rest => numSearch rest

example : numSearch "there are 3 of us".toList = some 3 := by decide
example : numSearch "12people".toList = none := by decide

/-- `nlp_parser.py` lines 96-105 — ride-type keyword cascade. -/
def rideTypeOf (lower : String) : String :=
  if ["rick", "rickshaw", "auto-rickshaw"].any (fun w => containsSub w lower) then
    "rickshaw"
  else if ["bike", "motorcycle", "two-wheeler"].any (fun w => containsSub w lower) then
    "bike"
  else if ["auto", "auto rickshaw"].any (fun w => containsSub w lower) then
    "auto"
  else if ["premium", "comfortable", "xl", "suv"].any (fun w => containsSub w lower) then
    "premium"
  else "car"

/-- `nlp_parser.py` lines 107-112 — AC preference: the negation branch is an
`elif` behind the plain `'ac' in ...` test. -/
def acPreferenceOf (lower : String) : Option Bool :=
  if containsSub "ac" lower || containsSub "air" lower then some true
  else if ["no ac", "without ac", "non-ac"].any (fun w => containsSub w lower) then
    some false
  else none

/-- `nlp_parser.py` line 115 — luggage flag. -/
def luggageOf (lower : String) : Bool :=
  ["luggage", "bag", "baggage", "suitcase"].any (fun w => containsSub w lower)

/-- `nlp_parser.py` lines 118-123 — passenger count. -/
def passengersOf (lower : String) : Nat :=
  if containsSub "we" lower || containsSub "us" lower then
    match numSearch lower.toList with
    | some n => n
    | none => 1
  else 1

/-- `nlp_parser.py` lines 77-135 — the body of `parse_ride_preferences`
(the `try` block), producing the `RidePreferences` record that the function
serializes with `model_dump_json`.  A table hit keeps `_match_destination`'s
answer; otherwise the regex capture (stripped) is used, defaulting to
"current location" when the pattern has no match. -/
def parseRidePreferencesRecord (input : String) : RidePreferences :=
  let destination :=
    match matchDestination input with
    | some d => d
    | none =>
      match reSearchDest (pyLower input).toList with
      | some g => pyStrip g
      | none => "current location"
  let lower := pyLower input
  { destination := destination
    ride_type := rideTypeOf lower
    passengers := passengersOf lower
    luggage := luggageOf lower
    ac_preference := acPreferenceOf lower }

/-- Return value of `parse_ride_preferences` as the caller observes it: a
string that is either `prefs.model_dump_json()` — the JSON serialization of a
`RidePreferences` record, kept here in structured form — or the literal
`f"Error: {str(e)}"` text built by the handler at `nlp_parser.py`
lines 137-139. -/
inductive ParseOutput where
  | record : RidePreferences → ParseOutput
  | errorText : String → ParseOutput
deriving DecidableEq

/-- `nlp_parser.py` lines 67-139 — `parse_ride_preferences` with the
exceptional exit made explicit: `fault = some msg` models an exception with
message `msg` raised inside the `try` block (none of the block's string
operations can raise, so a fault can only originate in its external calls:
logging, imports, pydantic construction). -/
def parse_ride_preferences (fault : Option String) (input : String) :
    ParseOutput :=
  match fault with
  | some msg => .errorText ("Error: " ++ msg)
  | none => .record (parseRidePreferencesRecord input)

example : parseRidePreferencesRecord "go to airport" =
    { destination := "a", ride_type := "car", passengers := 1,
      luggage := false, ac_preference := some true } := by decide
example : parseRidePreferencesRecord "book a cab with no ac" =
    { destination := "current location", ride_type := "car", passengers := 1,
      luggage := false, ac_preference := some true } := by decide
example : parseRidePreferencesRecord "go to jiit sec 62 by rickshaw" =
    { destination := "jaypee institute of information technology sec 62 noida",
      ride_type := "rickshaw", passengers := 1,
      luggage := false, ac_preference := none } := by decide

/-!
Orchestrator, `orchestrator.py`.  The per-provider unit of work
`_fetch_price_from_app` (open → get_price → close, lines 211-237) and
`agent.book_ride` never raise — every failure path returns `None` — so both
are abstracted as functions into `Option`, parameters of the embedding.
-/

instance {ε α : Type} [DecidableEq ε] [DecidableEq α] :
    DecidableEq (Except ε α) := fun x y =>
  match x, y with
  | .ok a, .ok b =>
    if h : a = b then isTrue (by rw [h])
    else isFalse (fun hh => h (Except.ok.inj hh))
  | .ok _, .error _ => isFalse (fun hh => Except.noConfusion hh)
  | .error _, .ok _ => isFalse (fun hh => Except.noConfusion hh)
  | .error e, .error f =>
    if h : e = f then isTrue (by rw [h])
    else isFalse (fun hh => h (Except.error.inj hh))

/-- `orchestrator.py` lines 42-46 — keys of `self.agents`, in insertion
order: the configured provider order. -/
def agentNames : List String := ["uber", "ola", "rapido"]

/-- CPython dict assignment `m[k] = v`: replace in place if the key exists,
append otherwise. -/
def dictSet (m : List (String × PriceInfo)) (k : String) (v : PriceInfo) :
    List (String × PriceInfo) :=
  if m.any (fun p => p.1 == k) then
    m.map (fun p => if p.1 = k then (k, v) else p)
  else m ++ [(k, v)]

/-- `orchestrator.py` lines 121-135 — the aggregation loop
`for i, app_name in enumerate(apps)`: `i` advances on every element, but
`results` holds one entry per registered element only; `results[i]` out of
range raises IndexError, which the inner `except` swallows (the iteration
continues). -/
def collectPrices (results : List (Option PriceInfo)) :
    List String → Nat → List (String × PriceInfo) → List (String × PriceInfo)
  | [], _, acc => acc
  | a :: rest, i, acc =>
    if agentNames.contains a then
      match results.get? i with
      | some (some p) => collectPrices results rest (i + 1) (dictSet acc a p)
      | some none => collectPrices results rest (i + 1) acc
      | none => collectPrices results rest (i + 1) acc
    else collectPrices results rest (i + 1) acc

/-- `orchestrator.py` line 141 — `min(prices.keys(), key=...)`: fold over the
dict in iteration (= insertion) order, replacing the current best only on a
strictly smaller price, so the earliest minimal key wins. -/
def minByPrice (hd : String × PriceInfo) (tl : List (String × PriceInfo)) :
    String × PriceInfo :=
  tl.foldl (fun best q =>
    if q.2.estimated_price < best.2.estimated_price then q else best) hd

/-- `orchestrator.py` lines 79-155 — `compare_prices`.  `fetch a` is provider
`a`'s whole concurrent unit (`_fetch_price_from_app`); `apps? = none` is the
default-argument case (all registered providers).  The `ValueError` raised
when no quotes arrive is the `Except.error` exit. -/
def compare_prices (fetch : String → Option PriceInfo)
    (apps? : Option (List String)) : Except String ComparisonResult :=
  let apps := apps?.getD agentNames
  let results := (apps.filter (fun a => agentNames.contains a)).map fetch
  let prices := collectPrices results apps 0 []
  match prices with
  | [] => .error "Could not fetch prices from any app"
  | p :: rest =>
    let cheapest := minByPrice p rest
    .ok { prices := prices
          cheapest_app := cheapest.1
          cheapest_price :=
            match List.lookup cheapest.1 prices with
            | some q => q.estimated_price
            | none => 0 }

/-- `orchestrator.py` lines 157-209 — `book_cheapest`.  `book a q` models
`self.agents[a].book_ride(..., q)`.  The whole body is wrapped in
`try/except → None`, so a failing comparison, a missing quote key or a
missing agent all produce `none` without any booking attempt.  The second
component records the booking calls issued, in order. -/
def book_cheapest (fetch : String → Option PriceInfo)
    (book : String → PriceInfo → Option BookingInfo)
    (comparison : Option ComparisonResult) :
    Option BookingInfo × List (String × PriceInfo) :=
  let comp? : Except String ComparisonResult :=
    match comparison with
    | some c => .ok c
    | none => compare_prices fetch none
  match comp? with
  | .error _ => (none, [])
  | .ok comp =>
    match List.lookup comp.cheapest_app comp.prices with
    | none => (none, [])
    | some price_info =>
      if agentNames.contains comp.cheapest_app then
        (book comp.cheapest_app price_info, [(comp.cheapest_app, price_info)])
      else (none, [])

/-- A quote as a provider's automation run may deliver it: the `app_name`
field is whatever structured output the external agent returns (the goal
text of `uber_agent.py` line 53 requests the display name "Uber"). -/
def quoteU : PriceInfo :=
  { app_name := "Uber", ride_type := "UberGo", estimated_price := 100,
    estimated_time := "7 mins" }

def quoteO : PriceInfo :=
  { app_name := "Ola", ride_type := "Ola Mini", estimated_price := 99,
    estimated_time := "5 mins" }

example :
    compare_prices (fun a => if a == "uber" then some quoteU else none)
      (some ["uber"]) =
    .ok { prices := [("uber", quoteU)], cheapest_app := "uber",
          cheapest_price := 100 } := by decide

/-- All-registered call: both quotes land under their own keys and the
cheaper Ola quote wins. -/
example :
    compare_prices
      (fun a => if a == "uber" then some quoteU else
                if a == "ola" then some quoteO else none) none =
    .ok { prices := [("uber", quoteU), ("ola", quoteO)], cheapest_app := "ola",
          cheapest_price := 99 } := by decide

/-- Misaligned call: an unregistered name ahead of registered ones shifts the
result pairing — Ola's quote is stored under "uber", Ola's own key is dropped. -/
example :
    compare_prices (fun a => if a == "ola" then some quoteO else none)
      (some ["bogus", "uber", "ola"]) =
    .ok { prices := [("uber", quoteO)], cheapest_app := "uber",
          cheapest_price := 99 } := by decide

example :
    compare_prices (fun _ => none) none =
      .error "Could not fetch prices from any app" := by decide

/-!
Specification-side definitions, written from the claims' wording, to be
compared with the embedded code above.
-/

/-- The ride-category keyword groups in the spec's priority order:
rickshaw, bike, auto, premium. -/
def rideFamilies : List (String × List String) :=
  [("rickshaw", ["rick", "rickshaw", "auto-rickshaw"]),
   ("bike", ["bike", "motorcycle", "two-wheeler"]),
   ("auto", ["auto", "auto rickshaw"]),
   ("premium", ["premium", "comfortable", "xl", "suv"])]

/-- Spec wording: the category of the first keyword group in priority order
with a token occurring in the lower-cased input; "car" if none matches. -/
def specRideType (lower : String) : String :=
  match rideFamilies.find? (fun f => f.2.any (fun w => containsSub w lower)) with
  | some f => f.1
  | none => "car"

/-- A destination's keywords have a specific-keyword hit in the input. -/
def specHasSpecificHit (kws : List String) (lower : String) : Bool :=
  kws.any (fun kw => isSpecificKw kw && containsSub kw lower)

/-- Spec wording: the first candidate in table order (a destination with at
least one keyword match) that has a hit on a specific keyword. -/
def specFirstSpecific (table : List (String × List String)) (lower : String) :
    Option String :=
  ((table.filter (fun p =>
      decide (0 < matchCount p.2 lower) && specHasSpecificHit p.2 lower)).head?).map
    (fun p => p.1)

/-- Spec wording: the candidate with the highest raw keyword-match count,
first in table order on ties — the first entry of the (table-ordered) match
list whose count is at least every other count. -/
def specArgmax (ms : List (String × Nat)) : Option String :=
  (ms.find? (fun q => ms.all (fun r => decide (r.2 ≤ q.2)))).map (fun q => q.1)

/-- Proof-side restatement of the aggregation loop for an aligned run (every
requested name registered): providers are paired with their own results. -/
def collectAligned (fetch : String → Option PriceInfo) :
    List String → List (String × PriceInfo) → List (String × PriceInfo)
  | [], acc => acc
  | a :: rest, acc =>
    match fetch a with
    | some p => collectAligned fetch rest (dictSet acc a p)
    | none => collectAligned fetch rest acc

/-!
Concrete fixtures used by counterexamples and witnesses.
-/

/-- Quote map fetcher of the misalignment scenario: only "ola" answers. -/
def fetchOlaOnly : String → Option PriceInfo :=
  fun a => if a == "ola" then some quoteO else none

/-- The comparison produced by requesting `["bogus", "uber", "ola"]` with
`fetchOlaOnly`: Ola's quote is filed under "uber". -/
def misalignedResult : ComparisonResult :=
  { prices := [("uber", quoteO)], cheapest_app := "uber", cheapest_price := 99 }

/-- A one-provider comparison used by witnesses. -/
def okUberResult : ComparisonResult :=
  { prices := [("uber", quoteU)], cheapest_app := "uber", cheapest_price := 100 }

def fetchUberOnly : String → Option PriceInfo :=
  fun a => if a == "uber" then some quoteU else none

/-- The default record the spec promises on extraction failure. -/
def defaultPrefs : RidePreferences :=
  { destination := "current location", ride_type := "car" }

/-- A comparison won by Ola, used to exercise the booking path. -/
def comparisonOla : ComparisonResult :=
  { prices := [("ola", quoteO)], cheapest_app := "ola", cheapest_price := 99 }

/-!
Theorems.
-/

theorem rideTypeOf_eq_specRideType (lower : String) :
    rideTypeOf lower = specRideType lower := by
  unfold rideTypeOf specRideType rideFamilies
  cases h1 : ["rick", "rickshaw", "auto-rickshaw"].any
      (fun w => containsSub w lower) <;>
    cases h2 : ["bike", "motorcycle", "two-wheeler"].any
        (fun w => containsSub w lower) <;>
      cases h3 : ["auto", "auto rickshaw"].any
          (fun w => containsSub w lower) <;>
        cases h4 : ["premium", "comfortable", "xl", "suv"].any
            (fun w => containsSub w lower) <;>
          simp [List.find?, h1, h2, h3, h4]

/-- C7: ride-category classification follows the fixed priority order
rickshaw, bike, auto, premium with default "car" (left conjunct: the
extracted category always equals the spec-side priority classification); in
particular an input with both a rickshaw-family and a premium-family token
classifies as "rickshaw" (right conjunct). -/
theorem ride_type_priority_classification (input : String) :
    (parseRidePreferencesRecord input).ride_type = specRideType (pyLower input) ∧
    ((["rick", "rickshaw", "auto-rickshaw"].any
        (fun w => containsSub w (pyLower input))) = true →
     (["premium", "comfortable", "xl", "suv"].any
        (fun w => containsSub w (pyLower input))) = true →
     (parseRidePreferencesRecord input).ride_type = "rickshaw") := by
  have hproj : (parseRidePreferencesRecord input).ride_type
      = rideTypeOf (pyLower input) := rfl
  refine ⟨hproj.trans (rideTypeOf_eq_specRideType _), fun h1 _ => ?_⟩
  rw [hproj]
  simp [rideTypeOf, h1]

/-- Witness for C7 at a concrete input holding both a rickshaw and a premium
token. -/
theorem ride_type_priority_classification_witness :
    (parseRidePreferencesRecord "premium rickshaw ride").ride_type = "rickshaw" :=
  (ride_type_priority_classification "premium rickshaw ride").2
    (by decide) (by decide)

/-- C1: at `compare_prices(apps=["bogus", "uber", "ola"])` with the uber unit
returning no quote and the ola unit returning `quoteO`, the code stores Ola's
quote under the key "uber" and selects "uber" — not "ola", the argmin over
the providers that returned a quote. -/
theorem compare_prices_misalignment_defeats_argmin :
    fetchOlaOnly "uber" = none ∧ fetchOlaOnly "ola" = some quoteO ∧
    compare_prices fetchOlaOnly (some ["bogus", "uber", "ola"]) =
      .ok misalignedResult ∧
    misalignedResult.cheapest_app = "uber" ∧
    (("uber" : String) == "ola") = false := by decide

/-- C3: with an internal exception (message "boom") raised inside the `try`
block, `parse_ride_preferences` returns the bare text "Error: boom", which is
not the serialized default record; without a fault it returns the structured
record. -/
theorem parse_fault_returns_error_text :
    parse_ride_preferences (some "boom") "take me home" =
      .errorText "Error: boom" ∧
    (parse_ride_preferences (some "boom") "take me home" ==
      .record defaultPrefs) = false ∧
    parse_ride_preferences none "take me home" =
      .record (parseRidePreferencesRecord "take me home") := by decide

/-- C8: on an input containing the negation token "no ac" the extractor
reports the AC preference as preferred (`some true`), because the negation
`elif` sits behind the `'ac' in text` test and is unreachable. -/
theorem ac_negation_token_yields_preferred :
    (parseRidePreferencesRecord "book a cab with no ac").ac_preference =
      some true ∧
    containsSub "no ac" (pyLower "book a cab with no ac") = true := by decide

/-- C9: with no canonical-table hit, the lazy capture group of the
destination regex commits to a single character: "go to airport" extracts
destination "a", not the whole phrase "airport". -/
theorem destination_regex_captures_single_char :
    matchDestination "go to airport" = none ∧
    (parseRidePreferencesRecord "go to airport").destination = "a" ∧
    (("a" : String) == "airport") = false := by decide

/-- C4 counterexample: a successfully constructed comparison whose stored
quote carries `app_name = "Uber"` under the map key "uber" — the stored
provider name does not equal its key. -/
theorem quote_app_name_differs_from_key :
    compare_prices fetchUberOnly (some ["uber"]) = .ok okUberResult ∧
    okUberResult.prices = [("uber", quoteU)] ∧
    quoteU.app_name = "Uber" ∧
    (("Uber" : String) == "uber") = false := by decide

theorem collectPrices_all_none (results : List (Option PriceInfo))
    (h : ∀ o ∈ results, o = none) :
    ∀ (l : List String) (i : Nat) (acc : List (String × PriceInfo)),
      collectPrices results l i acc = acc := by
  intro l
  induction l with
  | nil => intro i acc; rfl
  | cons a rest ih =>
    intro i acc
    cases hres : results.get? i with
    | none => simp only [collectPrices, hres]; split <;> exact ih _ _
    | some o =>
      cases o with
      | none => simp only [collectPrices, hres]; split <;> exact ih _ _
      | some p =>
        have hmem := h _ (List.get?_mem hres)
        exact absurd hmem (fun hx => Option.noConfusion hx)

/-- C2: if every requested provider's fetch unit returns no quote, the
comparison exits with the `ValueError` (left conjunct), and a successful
comparison never carries an empty quote map (right conjunct). -/
theorem all_fail_raises_no_quotes :
    (∀ (fetch : String → Option PriceInfo) (apps? : Option (List String)),
        (∀ a ∈ apps?.getD agentNames, fetch a = none) →
        compare_prices fetch apps? =
          .error "Could not fetch prices from any app") ∧
    (∀ fetch apps? r, compare_prices fetch apps? = .ok r → r.prices ≠ []) := by
  constructor
  · intro fetch apps? h
    have hnone : ∀ o ∈ ((apps?.getD agentNames).filter
        (fun a => agentNames.contains a)).map fetch, o = none := by
      intro o ho
      obtain ⟨a, ha, rfl⟩ := List.mem_map.mp ho
      exact h a (List.mem_of_mem_filter ha)
    simp only [compare_prices]
    rw [collectPrices_all_none _ hnone]
  · intro fetch apps? r h
    simp only [compare_prices] at h
    split at h
    · exact absurd h (fun hx => Except.noConfusion hx)
    · next p rest heq =>
      rw [heq] at h
      injection h with h
      rw [← h]
      simp

/-- Witness for C2: the all-providers-fail comparison over the default
provider list. -/
theorem all_fail_raises_no_quotes_witness :
    compare_prices (fun _ => none) (some ["uber", "ola", "rapido"]) =
      .error "Could not fetch prices from any app" :=
  all_fail_raises_no_quotes.1 (fun _ => none) (some ["uber", "ola", "rapido"])
    (fun _ _ => rfl)

theorem minByPrice_mem (hd : String × PriceInfo)
    (tl : List (String × PriceInfo)) : minByPrice hd tl ∈ hd :: tl := by
  induction tl generalizing hd with
  | nil => simp [minByPrice]
  | cons a tl ih =>
    have hrw : minByPrice hd (a :: tl) =
        minByPrice (if a.2.estimated_price < hd.2.estimated_price then a else hd)
          tl := rfl
    rw [hrw]
    rcases List.mem_cons.mp
        (ih (if a.2.estimated_price < hd.2.estimated_price then a else hd)) with
      h | h
    · rw [h]; split
      · exact List.mem_cons_of_mem _ (List.mem_cons_self _ _)
      · exact List.mem_cons_self _ _
    · exact List.mem_cons_of_mem _ (List.mem_cons_of_mem _ h)

/-- C4 (amended): every successfully constructed ComparisonResult has a
non-empty quote map, and its selected cheapest provider is one of the stored
keys. -/
theorem comparison_result_invariants (fetch : String → Option PriceInfo)
    (apps? : Option (List String)) (r : ComparisonResult)
    (h : compare_prices fetch apps? = .ok r) :
    r.prices ≠ [] ∧ r.cheapest_app ∈ r.prices.map Prod.fst := by
  simp only [compare_prices] at h
  split at h
  · exact absurd h (fun hx => Except.noConfusion hx)
  · next p rest heq =>
    rw [heq] at h
    injection h with h
    rw [← h]
    refine ⟨by simp, ?_⟩
    exact List.mem_map.mpr ⟨_, minByPrice_mem p rest, rfl⟩

/-- Witness for C4's amended invariants on a concrete comparison. -/
theorem comparison_result_invariants_witness :
    okUberResult.prices ≠ [] ∧
    okUberResult.cheapest_app ∈ okUberResult.prices.map Prod.fst :=
  comparison_result_invariants fetchUberOnly (some ["uber"]) okUberResult
    (by decide)

/-- C5: booking the cheapest (left conjunct) issues exactly one booking call,
to the winning provider with its stored quote, and returns that call's result
unchanged — in particular a failed booking yields `none` with no further
attempt; (middle conjunct) with no comparison supplied the comparison runs
first and booking proceeds on its result; (right conjunct) if that comparison
fails, no booking call is issued at all. -/
theorem book_cheapest_single_attempt :
    (∀ (fetch : String → Option PriceInfo)
        (book : String → PriceInfo → Option BookingInfo)
        (c : ComparisonResult) (q : PriceInfo),
        List.lookup c.cheapest_app c.prices = some q →
        agentNames.contains c.cheapest_app = true →
        book_cheapest fetch book (some c) =
          (book c.cheapest_app q, [(c.cheapest_app, q)])) ∧
    (∀ fetch book r, compare_prices fetch none = .ok r →
        book_cheapest fetch book none = book_cheapest fetch book (some r)) ∧
    (∀ fetch book e, compare_prices fetch none = .error e →
        book_cheapest fetch book none = (none, [])) := by
  refine ⟨?_, ?_, ?_⟩
  · intro fetch book c q hq hreg
    simp only [book_cheapest, hq, hreg, if_true]
  · intro fetch book r h
    simp only [book_cheapest, h]
  · intro fetch book e h
    simp only [book_cheapest, h]

/-- Witness for C5: Ola wins the supplied comparison, its booking call fails,
the operation reports `none` after exactly the one attempt on Ola. -/
theorem book_cheapest_single_attempt_witness :
    book_cheapest (fun _ => none) (fun _ _ => none) (some comparisonOla) =
      (none, [("ola", quoteO)]) :=
  book_cheapest_single_attempt.1 (fun _ => none) (fun _ _ => none)
    comparisonOla quoteO (by decide) (by decide)

theorem lookup_eq_none_of_keys_ne (k : String) (m : List (String × PriceInfo))
    (h : ∀ x ∈ m, x.1 ≠ k) : List.lookup k m = none := by
  induction m with
  | nil => rfl
  | cons q m ih =>
    obtain ⟨q1, q2⟩ := q
    have hq : (k == q1) = false := by
      cases hb : k == q1
      · rfl
      · exact absurd (eq_of_beq hb).symm (h (q1, q2) (List.mem_cons_self _ _))
    simp only [List.lookup, hq]
    exact ih (fun x hx => h x (List.mem_cons_of_mem _ hx))

theorem lookup_append_pairs (k : String) (l1 l2 : List (String × PriceInfo)) :
    List.lookup k (l1 ++ l2) =
      match List.lookup k l1 with
      | some v => some v
      | none => List.lookup k l2 := by
  induction l1 with
  | nil => rfl
  | cons q l1 ih =>
    obtain ⟨q1, q2⟩ := q
    cases hb : k == q1
    · simpa only [List.cons_append, List.lookup, hb] using ih
    · simp only [List.cons_append, List.lookup, hb]

theorem lookup_map_update_self (a : String) (p : PriceInfo) :
    ∀ m : List (String × PriceInfo), m.any (fun q => q.1 == a) = true →
      List.lookup a (m.map (fun q => if q.1 = a then (a, p) else q)) =
        some p := by
  intro m
  induction m with
  | nil => intro h; cases h
  | cons q m ih =>
    intro h
    obtain ⟨q1, q2⟩ := q
    by_cases hq : q1 = a
    · rw [List.map_cons, if_pos hq]
      simp [List.lookup]
    · have ha' : (a == q1) = false := by simp [Ne.symm hq]
      rw [List.map_cons, if_neg hq]
      simp only [List.lookup, ha']
      apply ih
      have hq' : (q1 == a) = false := by simp [hq]
      simpa [List.any_cons, hq'] using h

theorem lookup_map_update_ne (a k : String) (p : PriceInfo) (hk : k ≠ a) :
    ∀ m : List (String × PriceInfo),
      List.lookup k (m.map (fun q => if q.1 = a then (a, p) else q)) =
        List.lookup k m := by
  intro m
  induction m with
  | nil => rfl
  | cons q m ih =>
    obtain ⟨q1, q2⟩ := q
    by_cases hq : q1 = a
    · have hka : (k == a) = false := by simp [hk]
      have hkq : (k == q1) = false := by simp [hq, hk]
      rw [List.map_cons, if_pos hq]
      simp only [List.lookup, hka, hkq]
      exact ih
    · rw [List.map_cons, if_neg hq]
      simp only [List.lookup]
      cases hb : k == q1
      · exact ih
      · rfl

theorem lookup_dictSet (m : List (String × PriceInfo)) (a k : String)
    (p : PriceInfo) :
    List.lookup k (dictSet m a p) =
      if k = a then some p else List.lookup k m := by
  unfold dictSet
  cases hany : m.any (fun q => q.1 == a) with
  | false =>
    rw [if_neg (by simp [hany])]
    rw [lookup_append_pairs]
    have hnone : ∀ x ∈ m, x.1 ≠ a := by
      intro x hx hxa
      have : m.any (fun q => q.1 == a) = true :=
        List.any_eq_true.mpr ⟨x, hx, by simp [hxa]⟩
      rw [hany] at this
      cases this
    by_cases hk : k = a
    · subst hk
      rw [lookup_eq_none_of_keys_ne k m hnone]
      simp [List.lookup]
    · have hkb : (k == a) = false := by simp [hk]
      simp only [List.lookup, hkb, if_neg hk]
      cases List.lookup k m <;> rfl
  | true =>
    rw [if_pos (by simp [hany])]
    by_cases hk : k = a
    · subst hk
      rw [lookup_map_update_self k p m hany, if_pos rfl]
    · rw [lookup_map_update_ne a k p hk m, if_neg hk]

theorem lookup_collectAligned (fetch : String → Option PriceInfo) :
    ∀ (l : List String) (acc : List (String × PriceInfo)) (k : String),
      List.lookup k (collectAligned fetch l acc) =
        if k ∈ l ∧ (fetch k).isSome = true then fetch k
        else List.lookup k acc := by
  intro l
  induction l with
  | nil => intro acc k; simp [collectAligned]
  | cons a rest ih =>
    intro acc k
    cases hfa : fetch a with
    | some p =>
      simp only [collectAligned, hfa, ih, lookup_dictSet]
      by_cases hk : k = a
      · simp [hk, hfa, List.mem_cons]
      · simp [hk, List.mem_cons]
    | none =>
      simp only [collectAligned, hfa, ih]
      by_cases hk : k = a
      · simp [hk, hfa]
      · simp [hk, List.mem_cons]

theorem collectPrices_aligned (fetch : String → Option PriceInfo) :
    ∀ (post pre : List String) (acc : List (String × PriceInfo)),
      (∀ a ∈ post, agentNames.contains a = true) →
      collectPrices ((pre ++ post).map fetch) post pre.length acc =
        collectAligned fetch post acc := by
  intro post
  induction post with
  | nil => intro pre acc _; rfl
  | cons a rest ih =>
    intro pre acc h
    have hreg : agentNames.contains a = true := h a (List.mem_cons_self _ _)
    have hget : ((pre ++ a :: rest).map fetch).get? pre.length =
        some (fetch a) := by
      rw [List.get?_map, List.get?_append_right (Nat.le_refl _)]
      simp
    have hlen : pre.length + 1 = (pre ++ [a]).length := by
      simp
    have happ : pre ++ a :: rest = (pre ++ [a]) ++ rest := by
      simp
    cases hfa : fetch a with
    | some p =>
      simp only [collectPrices, hreg, if_true, hget, collectAligned, hfa]
      rw [hlen, happ]
      exact ih (pre ++ [a]) (dictSet acc a p)
        (fun x hx => h x (List.mem_cons_of_mem _ hx))
    | none =>
      simp only [collectPrices, hreg, if_true, hget, collectAligned, hfa]
      rw [hlen, happ]
      exact ih (pre ++ [a]) acc (fun x hx => h x (List.mem_cons_of_mem _ hx))

/-- C10: when every requested name is registered, each stored key holds
exactly its own provider's fetch result (left conjunct); with an unregistered
name ahead of registered ones the positional pairing shifts — Ola's quote is
filed under "uber" and "ola" itself is absent, dropping its quote (right
conjunct). -/
theorem quote_storage_alignment :
    (∀ (apps : List String) (fetch : String → Option PriceInfo)
        (r : ComparisonResult) (k : String),
        (∀ a ∈ apps, agentNames.contains a = true) →
        compare_prices fetch (some apps) = .ok r →
        List.lookup k r.prices = if k ∈ apps then fetch k else none) ∧
    (compare_prices fetchOlaOnly (some ["bogus", "uber", "ola"]) =
        .ok misalignedResult ∧
      List.lookup "uber" misalignedResult.prices = some quoteO ∧
      List.lookup "ola" misalignedResult.prices = none ∧
      fetchOlaOnly "uber" = none ∧ fetchOlaOnly "ola" = some quoteO) := by
  constructor
  · intro apps fetch r k hreg hok
    simp only [compare_prices, Option.getD] at hok
    rw [List.filter_eq_self.mpr hreg] at hok
    have hcoll := collectPrices_aligned fetch apps [] [] hreg
    rw [List.nil_append] at hcoll
    rw [show ([] : List String).length = 0 from rfl] at hcoll
    rw [hcoll] at hok
    split at hok
    · exact absurd hok (fun hx => Except.noConfusion hx)
    · next p rest heq =>
      rw [heq] at hok
      injection hok with hok
      rw [← hok]
      show List.lookup k (p :: rest) = _
      rw [← heq, lookup_collectAligned]
      by_cases hm : k ∈ apps
      · cases hs : fetch k <;> simp [hm, hs]
      · simp [hm]
  · refine ⟨by decide, by decide, by decide, by decide, by decide⟩

/-- Witness for C10's aligned conjunct at a concrete registered-only call. -/
theorem quote_storage_alignment_witness :
    List.lookup "uber" okUberResult.prices =
      if "uber" ∈ ["uber"] then fetchUberOnly "uber" else none :=
  quote_storage_alignment.1 ["uber"] fetchUberOnly okUberResult "uber"
    (by decide) (by decide)

theorem isEmpty_filter_eq_not_any (p : String → Bool) (l : List String) :
    (l.filter p).isEmpty = !(l.any p) := by
  induction l with
  | nil => rfl
  | cons a l ih =>
    cases hpa : p a <;> simp [List.filter_cons, hpa, ih, List.any_cons]

theorem find?_congr_pred {α : Type} (p q : α → Bool) :
    ∀ l : List α, (∀ x ∈ l, p x = q x) → l.find? p = l.find? q := by
  intro l
  induction l with
  | nil => intro _; rfl
  | cons a l ih =>
    intro h
    have ha := h a (List.mem_cons_self _ _)
    cases hpa : p a
    · rw [List.find?_cons_of_neg _ (by simp [hpa]),
        List.find?_cons_of_neg _ (by rw [← ha]; simp [hpa])]
      exact ih (fun x hx => h x (List.mem_cons_of_mem _ hx))
    · rw [List.find?_cons_of_pos _ (by simp [hpa]),
        List.find?_cons_of_pos _ (by rw [← ha]; simp [hpa])]

theorem pyMaxPair_cons (hd a : String × Nat) (tl : List (String × Nat)) :
    pyMaxPair hd (a :: tl) = pyMaxPair (if hd.2 < a.2 then a else hd) tl := rfl

theorem pyMaxPair_max :
    ∀ (tl : List (String × Nat)) (hd : String × Nat),
      ∀ q ∈ hd :: tl, q.2 ≤ (pyMaxPair hd tl).2 := by
  intro tl
  induction tl with
  | nil =>
    intro hd q hq
    rcases List.mem_cons.mp hq with rfl | h
    · exact Nat.le_refl _
    · cases h
  | cons a tl ih =>
    intro hd q hq
    rw [pyMaxPair_cons]
    have hstep : hd.2 ≤ (if hd.2 < a.2 then a else hd).2 ∧
        a.2 ≤ (if hd.2 < a.2 then a else hd).2 := by
      by_cases h : hd.2 < a.2 <;> simp [h] <;> omega
    rcases List.mem_cons.mp hq with rfl | h'
    · exact le_trans hstep.1 (ih _ _ (List.mem_cons_self _ _))
    · rcases List.mem_cons.mp h' with rfl | h''
      · exact le_trans hstep.2 (ih _ _ (List.mem_cons_self _ _))
      · exact ih _ q (List.mem_cons_of_mem _ h'')

theorem pyMaxPair_mem :
    ∀ (tl : List (String × Nat)) (hd : String × Nat),
      pyMaxPair hd tl ∈ hd :: tl := by
  intro tl
  induction tl with
  | nil => intro hd; simp [pyMaxPair]
  | cons a tl ih =>
    intro hd
    rw [pyMaxPair_cons]
    rcases List.mem_cons.mp (ih (if hd.2 < a.2 then a else hd)) with h | h
    · rw [h]; split
      · exact List.mem_cons_of_mem _ (List.mem_cons_self _ _)
      · exact List.mem_cons_self _ _
    · exact List.mem_cons_of_mem _ (List.mem_cons_of_mem _ h)

theorem pyMaxPair_find :
    ∀ (tl : List (String × Nat)) (hd : String × Nat),
      (hd :: tl).find?
          (fun q => decide ((pyMaxPair hd tl).2 ≤ q.2)) =
        some (pyMaxPair hd tl) := by
  intro tl
  induction tl with
  | nil =>
    intro hd
    have hbase : pyMaxPair hd [] = hd := rfl
    rw [hbase]
    simp [List.find?]
  | cons a tl ih =>
    intro hd
    rw [pyMaxPair_cons]
    by_cases hlt : hd.2 < a.2
    · rw [if_pos hlt]
      have hma : a.2 ≤ (pyMaxPair a tl).2 :=
        pyMaxPair_max tl a a (List.mem_cons_self _ _)
      have hhd : decide ((pyMaxPair a tl).2 ≤ hd.2) = false := by
        simp
        omega
      simp only [List.find?, hhd]
      exact ih a
    · rw [if_neg hlt]
      have hihh := ih hd
      cases hhd : decide ((pyMaxPair hd tl).2 ≤ hd.2) with
      | true =>
        simp only [List.find?, hhd] at hihh ⊢
        exact hihh
      | false =>
        have hae : a.2 ≤ hd.2 := Nat.le_of_not_lt hlt
        have hhd' : ¬ (pyMaxPair hd tl).2 ≤ hd.2 := by simpa using hhd
        have hna : decide ((pyMaxPair hd tl).2 ≤ a.2) = false := by
          simp
          omega
        simp only [List.find?, hhd] at hihh
        simp only [List.find?, hhd, hna]
        exact hihh

theorem specArgmax_eq_pyMax (hd : String × Nat) (tl : List (String × Nat)) :
    specArgmax (hd :: tl) = some (pyMaxBySnd hd tl) := by
  unfold specArgmax pyMaxBySnd
  have hcong :
      (hd :: tl).find? (fun q => (hd :: tl).all (fun r => decide (r.2 ≤ q.2))) =
        (hd :: tl).find? (fun q => decide ((pyMaxPair hd tl).2 ≤ q.2)) := by
    apply find?_congr_pred
    intro x hx
    have hmax := pyMaxPair_max tl hd
    have hmem := pyMaxPair_mem tl hd
    cases hall : (hd :: tl).all (fun r => decide (r.2 ≤ x.2)) with
    | true =>
      have hx2 : (pyMaxPair hd tl).2 ≤ x.2 := by
        have := List.all_eq_true.mp hall _ hmem
        simpa using this
      simp [hx2]
    | false =>
      have : ¬ ∀ r ∈ hd :: tl, r.2 ≤ x.2 := by
        intro hc
        rw [List.all_eq_true.mpr (fun r hr => by simpa using hc r hr)] at hall
        cases hall
      have hx2 : ¬ (pyMaxPair hd tl).2 ≤ x.2 := by
        intro hle
        exact this (fun r hr => le_trans (hmax r hr) hle)
      simp [hx2]
  rw [hcong, pyMaxPair_find]
  rfl

theorem destMatches_lookup_none (lower : String) :
    ∀ (table : List (String × List String)) (d : String),
      d ∉ table.map Prod.fst →
      List.lookup d (destMatches table lower) = none := by
  intro table
  induction table with
  | nil => intro d _; rfl
  | cons p rest ih =>
    intro d hd
    obtain ⟨d0, kws⟩ := p
    simp only [List.map_cons, List.mem_cons] at hd
    push_neg at hd
    obtain ⟨hne, hrest⟩ := hd
    have hb : (d == d0) = false := by simp [hne]
    simp only [destMatches]
    split
    · simp only [List.lookup, hb]
      exact ih d hrest
    · exact ih d hrest

theorem destMatches_lookup_isSome (lower : String) :
    ∀ table : List (String × List String),
      (table.map Prod.fst).Nodup →
      ∀ d kws, (d, kws) ∈ table →
        (List.lookup d (destMatches table lower)).isSome =
          decide (0 < matchCount kws lower) := by
  intro table
  induction table with
  | nil => intro _ d kws h; cases h
  | cons p rest ih =>
    intro hnd d kws hmem
    obtain ⟨d0, kws0⟩ := p
    simp only [List.map_cons, List.nodup_cons] at hnd
    obtain ⟨hd0, hndr⟩ := hnd
    rcases List.mem_cons.mp hmem with heq | hmem'
    · obtain ⟨rfl, rfl⟩ := Prod.mk.inj heq
      simp only [destMatches]
      by_cases hc : 0 < matchCount kws lower
      · rw [if_pos hc]
        simp [List.lookup, hc]
      · rw [if_neg hc]
        rw [destMatches_lookup_none lower rest d hd0]
        simp [hc]
    · have hdm : d ∈ rest.map Prod.fst :=
        List.mem_map.mpr ⟨(d, kws), hmem', rfl⟩
      have hne : d ≠ d0 := fun h => hd0 (h ▸ hdm)
      have hb : (d == d0) = false := by simp [hne]
      simp only [destMatches]
      split
      · simp only [List.lookup, hb]
        exact ih hndr d kws hmem'
      · exact ih hndr d kws hmem'

theorem isEmpty_double_filter (kws : List String) (lower : String) :
    ((kws.filter isSpecificKw).filter
        (fun kw => containsSub kw lower)).isEmpty =
      !(specHasSpecificHit kws lower) := by
  induction kws with
  | nil => rfl
  | cons k kws ih =>
    unfold specHasSpecificHit at ih ⊢
    cases hs : isSpecificKw k <;> cases hc : containsSub k lower <;>
      simp [List.filter_cons, hs, hc, List.any_cons, ih, -List.filter_filter]

theorem firstSpecific_eq_spec (lower : String) (ms : List (String × Nat)) :
    ∀ table : List (String × List String),
      (∀ d kws, (d, kws) ∈ table →
        (List.lookup d ms).isSome = decide (0 < matchCount kws lower)) →
      firstSpecific table ms lower = specFirstSpecific table lower := by
  intro table
  induction table with
  | nil => intro _; rfl
  | cons p rest ih =>
    intro h
    obtain ⟨d, kws⟩ := p
    have hd := h d kws (List.mem_cons_self _ _)
    have hrest := fun d' kws' hm => h d' kws' (List.mem_cons_of_mem _ hm)
    have hempt := isEmpty_double_filter kws lower
    by_cases hc : 0 < matchCount kws lower
    · have hds : (List.lookup d ms).isSome = true := by rw [hd]; simp [hc]
      cases hhit : specHasSpecificHit kws lower with
      | true =>
        have hne : ((kws.filter isSpecificKw).filter
            (fun kw => containsSub kw lower)).isEmpty = false := by
          rw [hempt, hhit]; rfl
        simp only [firstSpecific, hds, if_true, hne, Bool.false_eq_true,
          if_false]
        unfold specFirstSpecific
        rw [List.filter_cons]
        simp [hc, hhit]
      | false =>
        have hemp : ((kws.filter isSpecificKw).filter
            (fun kw => containsSub kw lower)).isEmpty = true := by
          rw [hempt, hhit]; rfl
        simp only [firstSpecific, hds, if_true, hemp]
        rw [ih hrest]
        unfold specFirstSpecific
        rw [List.filter_cons]
        simp [hhit]
    · have hds : (List.lookup d ms).isSome = false := by rw [hd]; simp [hc]
      simp only [firstSpecific, hds, Bool.false_eq_true, if_false]
      rw [ih hrest]
      unfold specFirstSpecific
      rw [List.filter_cons]
      simp [hc]

/-- C6: whenever more than one canonical destination has keyword matches,
`_match_destination` returns the first candidate in table order with a
specific-keyword hit, and if no candidate has one, the candidate with the
highest raw match count, earliest in table order on ties. -/
theorem destination_disambiguation (input : String)
    (h : 1 < (destMatches COMMON_DESTINATIONS (pyLower input)).length) :
    matchDestination input =
      match specFirstSpecific COMMON_DESTINATIONS (pyLower input) with
      | some d => some d
      | none => specArgmax (destMatches COMMON_DESTINATIONS (pyLower input)) := by
  cases hms : destMatches COMMON_DESTINATIONS (pyLower input) with
  | nil => rw [hms] at h; cases h
  | cons m0 tl =>
    cases tl with
    | nil => rw [hms] at h; simp at h
    | cons m1 rest =>
      have hcorr : ∀ d kws, (d, kws) ∈ COMMON_DESTINATIONS →
          (List.lookup d (m0 :: m1 :: rest)).isSome =
            decide (0 < matchCount kws (pyLower input)) := by
        intro d kws hmem
        rw [← hms]
        exact destMatches_lookup_isSome (pyLower input) COMMON_DESTINATIONS
          (by decide) d kws hmem
      have hbody : matchDestination input =
          match firstSpecific COMMON_DESTINATIONS (m0 :: m1 :: rest)
              (pyLower input) with
          | some d => some d
          | none => some (pyMaxBySnd m0 (m1 :: rest)) := by
        simp only [matchDestination]
        rw [hms]
      rw [hbody]
      rw [firstSpecific_eq_spec (pyLower input) (m0 :: m1 :: rest)
        COMMON_DESTINATIONS hcorr]
      cases hsp : specFirstSpecific COMMON_DESTINATIONS (pyLower input) with
      | some d => rfl
      | none =>
        rw [specArgmax_eq_pyMax]

/-- Witness for C6 at "jaypee sector 128": two candidates match, the sec-128
destination wins through its specific keyword. -/
theorem destination_disambiguation_witness :
    1 < (destMatches COMMON_DESTINATIONS (pyLower "jaypee sector 128")).length ∧
    matchDestination "jaypee sector 128" =
      match specFirstSpecific COMMON_DESTINATIONS (pyLower "jaypee sector 128") with
      | some d => some d
      | none =>
        specArgmax (destMatches COMMON_DESTINATIONS (pyLower "jaypee sector 128")) :=
  ⟨by decide, destination_disambiguation "jaypee sector 128" (by decide)⟩
